import Mathlib

/-!
Verification of the ComfyUI-HTTP request engine: a shallow embedding of the
HTTP client retry loop (`http_client.py`), the auth applier (`http_auth.py`),
the form-data merge (`http_form_data_concat.py`), the session registry
(`http_session_manager.py`) and the JSON field extractors
(`http_get_json_field.py`, `http_json_converter.py`), with theorems about the
spec's claims over that embedding.

Python dictionaries are modelled as insertion-ordered association lists,
Python strings as Lean `String`, JSON values as an inductive `Json` type in
which the JSON `null` is identified with Python's `None` (exactly as
`json.loads` does).  The external HTTP transport (the `requests` library) is
modelled as a function from the attempt index to the outcome of that attempt.
-/

namespace ComfyHTTP

/-! ## Python dict operations on insertion-ordered association lists -/

/-- `m.get(k)` as `Option`: first (and in a real dict, only) binding of `k`. -/
def dictGet? {α : Type} (m : List (String × α)) (k : String) : Option α :=
  (m.find? (fun p => p.1 == k)).map (fun p => p.2)

/-- `k in m` for a Python dict. -/
def dictContains {α : Type} (m : List (String × α)) (k : String) : Bool :=
  m.any (fun p => p.1 == k)

/-- `m[k] = v` on a Python dict: updates the value in place when the key is
present (keeping its position), otherwise appends the new binding. -/
def dictInsert {α : Type} (m : List (String × α)) (k : String) (v : α) :
    List (String × α) :=
  if dictContains m k then
    m.map (fun p => if p.1 == k then (k, v) else p)
  else
    m ++ [(k, v)]

/-- The keys of a dict, in insertion order. -/
def dictKeys {α : Type} (m : List (String × α)) : List String :=
  m.map (fun p => p.1)

/-! ## Character/string helpers (ASCII, as exercised by the source) -/

/-- ASCII lower-casing of one character, as `str.lower` does on ASCII. -/
def charLower (c : Char) : Char :=
  if 'A' ≤ c ∧ c ≤ 'Z' then Char.ofNat (c.toNat + 32) else c

/-- `s.lower()` on ASCII strings. -/
def strLower (s : String) : String := ⟨s.data.map charLower⟩

/-- `needle in hay` on Python strings: substring containment. -/
def strContains (hay needle : String) : Bool :=
  decide (needle.data <:+: hay.data)

/-- Splitting a char list on `'.'` (Python `split('.')` semantics:
`"" ↦ [""]`, `"a..b" ↦ ["a","","b"]`). -/
def splitDotAux : List Char → List (List Char)
  | [] => [[]]
  | c :: rest =>
    match splitDotAux rest with
    | [] => [[c]]
    | h :: t => if c = '.' then [] :: h :: t else (c :: h) :: t

/-- `s.split('.')` on a Python string. -/
def splitDot (s : String) : List String :=
  (splitDotAux s.data).map String.mk

/-- Python `str.strip()`'s whitespace set (ASCII part). -/
def isSpaceChar (c : Char) : Bool :=
  c = ' ' || c = '\t' || c = '\n' || c = '\r' || c = Char.ofNat 11 || c = Char.ofNat 12

/-- `s.strip()` on a Python string. -/
def pyStrip (s : String) : String :=
  ⟨((s.data.dropWhile isSpaceChar).reverse.dropWhile isSpaceChar).reverse⟩

/-- `s.startswith('$')`. -/
def startsDollar (s : String) : Bool :=
  match s.data with
  | c :: _ => c == '$'
  | [] => false

/-- Is `c` an ASCII decimal digit? -/
def isDigitCh (c : Char) : Bool := '0' ≤ c && c ≤ '9'

/-- `s.isdigit()` restricted to ASCII digits (the source never feeds it the
exotic Unicode digit classes). -/
def isDigitStr (s : String) : Bool :=
  !s.data.isEmpty && s.data.all isDigitCh

/-! ## Decimal rendering of naturals (Python `str(n)` / f-string `{n}`) -/

/-- The ASCII digit character for `n < 10`. -/
def digitChar (n : Nat) : Char := Char.ofNat (48 + n)

/-- Fuelled most-significant-first decimal digit list; fuel `n + 1` always
suffices. -/
def natToCharsAux : Nat → Nat → List Char
  | 0, _ => []
  | fuel + 1, n =>
    if n < 10 then [digitChar n]
    else natToCharsAux fuel (n / 10) ++ [digitChar (n % 10)]

/-- Python `str(n)` for a natural number. -/
def natToString (n : Nat) : String := ⟨natToCharsAux (n + 1) n⟩

/-- Value of a most-significant-first ASCII digit list. -/
def digitsVal (cs : List Char) : Nat :=
  cs.foldl (fun a c => 10 * a + (c.toNat - 48)) 0

/-- `int(s)` for a string of ASCII digits. -/
def parseDigits (s : String) : Nat := digitsVal s.data

/-! ## HTTP client (`http_client.py`, `HTTPClient.make_request` / `get_binary`)

The `requests` transport is external; it is modelled as a function
`transport : Nat → Outcome` giving, for each 0-based attempt index, either the
exception `session.request` raised on that attempt or the `Response` it
returned.  Exceptions are opaque and carried as strings (the single
`except Exception` clause of the source never inspects them).  `time.sleep`
calls are recorded in a trace; `retry_delay` is a `float`, modelled as `ℚ`. -/

/-- A transport-level response: status code, header dict exactly as produced
by `dict(response.headers)` (original header-name casing preserved), the
decoded `response.text` and the raw `response.content` bytes. -/
structure Response where
  status : Nat
  headers : List (String × String)
  textOf : String
  contentOf : List Nat
deriving DecidableEq

/-- Outcome of one `session.request` call. -/
inductive Outcome where
  | exn (e : String)
  | resp (r : Response)

/-- The body handed back by `make_request`: `response.text` or
`response.content`. -/
inductive Content where
  | textBody (s : String)
  | binaryBody (b : List Nat)
deriving DecidableEq

/-- `response_headers.get('content-type', '').lower()`: an exact (hence
case-sensitive) dict lookup of the key `"content-type"`, lower-casing the
value afterwards. -/
def contentTypeOf (headers : List (String × String)) : String :=
  strLower ((dictGet? headers "content-type").getD "")

/-- `'image/' in content_type or 'application/octet-stream' in content_type`. -/
def isBinaryCT (ct : String) : Bool :=
  strContains ct "image/" || strContains ct "application/octet-stream"

/-- Body selection of `make_request`: binary content for image/octet-stream
content types, text otherwise. -/
def classifyBody (r : Response) : Content :=
  if isBinaryCT (contentTypeOf r.headers) then Content.binaryBody r.contentOf
  else Content.textBody r.textOf

/-- Result of a full `make_request` call: the returned triple or the raised
exception, together with the number of attempts performed and the trace of
`time.sleep` durations. -/
structure ReqResult where
  result : Except String (Nat × List (String × String) × Content)
  attempts : Nat
  sleeps : List ℚ

/-- The `for attempt in range(self.max_retries)` loop of `make_request`:
`attempt` is the current index, `rem` the remaining iterations, `lastE` the
`last_exception` variable.  On an exception it sleeps
`retry_delay * (attempt + 1)` whenever `attempt < max_retries - 1`; after the
loop it raises `last_exception or Exception(...)`. -/
def mrLoop (transport : Nat → Outcome) (maxRetries : Nat) (retryDelay : ℚ) :
    Nat → Nat → Option String → ReqResult
  | _, 0, lastE =>
    ⟨Except.error (lastE.getD "HTTP request failed after all retries"), 0, []⟩
  | attempt, rem + 1, _ =>
    match transport attempt with
    | Outcome.resp r =>
      ⟨Except.ok (r.status, r.headers, classifyBody r), 1, []⟩
    | Outcome.exn e =>
      let s : List ℚ :=
        if attempt < maxRetries - 1 then [retryDelay * ((attempt : ℚ) + 1)] else []
      let rest := mrLoop transport maxRetries retryDelay (attempt + 1) rem (some e)
      ⟨rest.result, rest.attempts + 1, s ++ rest.sleeps⟩

/-- `HTTPClient.make_request`, with the per-call transport abstracted. -/
def make_request (maxRetries : Nat) (retryDelay : ℚ)
    (transport : Nat → Outcome) : ReqResult :=
  mrLoop transport maxRetries retryDelay 0 maxRetries none

/-- Result of a full `get_binary` call (body always raw bytes). -/
structure BinResult where
  result : Except String (Nat × List (String × String) × List Nat)
  attempts : Nat
  sleeps : List ℚ

/-- The retry loop of `HTTPClient.get_binary`: identical to `mrLoop` except
that the body returned is always `response.content`. -/
def gbLoop (transport : Nat → Outcome) (maxRetries : Nat) (retryDelay : ℚ) :
    Nat → Nat → Option String → BinResult
  | _, 0, lastE =>
    ⟨Except.error (lastE.getD "HTTP binary request failed after all retries"), 0, []⟩
  | attempt, rem + 1, _ =>
    match transport attempt with
    | Outcome.resp r =>
      ⟨Except.ok (r.status, r.headers, r.contentOf), 1, []⟩
    | Outcome.exn e =>
      let s : List ℚ :=
        if attempt < maxRetries - 1 then [retryDelay * ((attempt : ℚ) + 1)] else []
      let rest := gbLoop transport maxRetries retryDelay (attempt + 1) rem (some e)
      ⟨rest.result, rest.attempts + 1, s ++ rest.sleeps⟩

/-- `HTTPClient.get_binary`, with the per-call transport abstracted. -/
def get_binary (maxRetries : Nat) (retryDelay : ℚ)
    (transport : Nat → Outcome) : BinResult :=
  gbLoop transport maxRetries retryDelay 0 maxRetries none

/-- The sleep trace produced by a run of `rem` consecutive failing attempts
starting at index `attempt` (one `retryDelay * (attempt + 1)` sleep per
failing attempt except an attempt at index `maxRetries - 1` or later). -/
def sleepsFrom (maxRetries : Nat) (retryDelay : ℚ) : Nat → Nat → List ℚ
  | _, 0 => []
  | attempt, rem + 1 =>
    (if attempt < maxRetries - 1 then [retryDelay * ((attempt : ℚ) + 1)] else []) ++
      sleepsFrom maxRetries retryDelay (attempt + 1) rem

/-! ## JSON values

`json.loads` output: JSON `null` and Python `None` are the same value, so the
`null` constructor plays both roles.  The claims only exercise integral JSON
numbers, so numbers are carried as `Int`. -/

/-- A parsed JSON value (the result of `json.loads`). -/
inductive Json where
  | null
  | bool (b : Bool)
  | num (n : Int)
  | str (s : String)
  | arr (xs : List Json)
  | obj (fields : List (String × Json))

/-- `v is None` (the JSON `null` / Python `None` test). -/
def isNull : Json → Bool
  | Json.null => true
  | _ => false

/-- Python `str(n)` for an integer. -/
def intToString (n : Int) : String :=
  if n < 0 then "-" ++ natToString n.natAbs else natToString n.natAbs

/-- Python truthiness of a `json.loads` value. -/
def jsonTruthy : Json → Bool
  | Json.null => false
  | Json.bool b => b
  | Json.num n => !(n == 0)
  | Json.str s => s != ""
  | Json.arr xs => !xs.isEmpty
  | Json.obj fs => !fs.isEmpty

/-- JSON string quoting for `json.dumps` (escapes backslash and double quote;
the claims never reach values needing control-character escapes). -/
def jsonQuote (s : String) : String :=
  ⟨'"' :: (s.data.flatMap (fun c =>
    if c = '"' then ['\\', '"'] else if c = '\\' then ['\\', '\\'] else [c])) ++ ['"']⟩

mutual

/-- Python `json.dumps(v)` with the default separators. -/
def jsonDumps : Json → String
  | Json.null => "null"
  | Json.bool b => cond b "true" "false"
  | Json.num n => intToString n
  | Json.str s => jsonQuote s
  | Json.arr xs => "[" ++ dumpsElems xs ++ "]"
  | Json.obj fs =>
    String.singleton (Char.ofNat 123) ++ dumpsFields fs ++ String.singleton (Char.ofNat 125)

/-- Comma-joined `json.dumps` of array elements. -/
def dumpsElems : List Json → String
  | [] => ""
  | [x] => jsonDumps x
  | x :: y :: rest => jsonDumps x ++ ", " ++ dumpsElems (y :: rest)

/-- Comma-joined `json.dumps` of object members. -/
def dumpsFields : List (String × Json) → String
  | [] => ""
  | [p] => jsonQuote p.1 ++ ": " ++ jsonDumps p.2
  | p :: q :: rest => jsonQuote p.1 ++ ": " ++ jsonDumps p.2 ++ ", " ++ dumpsFields (q :: rest)

end

/-- Python single-quoted `repr` of a string (escape-free form; the claims
never reach strings containing quotes). -/
def pyQuote (s : String) : String :=
  ⟨Char.ofNat 39 :: s.data ++ [Char.ofNat 39]⟩

mutual

/-- Python `repr` of a `json.loads` value (scalars and the single-quoted
string form; sufficient for `str()` of containers). -/
def pyRepr : Json → String
  | Json.null => "None"
  | Json.bool b => cond b "True" "False"
  | Json.num n => intToString n
  | Json.str s => pyQuote s
  | Json.arr xs => "[" ++ reprElems xs ++ "]"
  | Json.obj fs =>
    String.singleton (Char.ofNat 123) ++ reprFields fs ++ String.singleton (Char.ofNat 125)

/-- Comma-joined `repr` of list elements. -/
def reprElems : List Json → String
  | [] => ""
  | [x] => pyRepr x
  | x :: y :: rest => pyRepr x ++ ", " ++ reprElems (y :: rest)

/-- Comma-joined `repr` of dict members. -/
def reprFields : List (String × Json) → String
  | [] => ""
  | [p] => pyQuote p.1 ++ ": " ++ pyRepr p.2
  | p :: q :: rest =>
    pyQuote p.1 ++ ": " ++ pyRepr p.2 ++ ", " ++ reprFields (q :: rest)

end

/-- Python `str(v)` for a `json.loads` value (`str` falls back to `repr` on
containers). -/
def pyStr : Json → String
  | Json.null => "None"
  | Json.bool b => cond b "True" "False"
  | Json.num n => intToString n
  | Json.str s => s
  | Json.arr xs => pyRepr (Json.arr xs)
  | Json.obj fs => pyRepr (Json.obj fs)

/-- Python `int(s)`: strip whitespace, optional sign, one or more ASCII
digits (digit-grouping underscores are not used by any caller). Returns
`none` where Python raises `ValueError`. -/
def pyInt? (s : String) : Option Int :=
  match (pyStrip s).data with
  | '-' :: ds =>
    if !ds.isEmpty && ds.all isDigitCh then some (-(digitsVal ds : Int)) else none
  | '+' :: ds =>
    if !ds.isEmpty && ds.all isDigitCh then some (digitsVal ds : Int) else none
  | ds =>
    if !ds.isEmpty && ds.all isDigitCh then some (digitsVal ds : Int) else none

/-! ## JSON field node (`http_get_json_field.py`, `HTTPGetJSONFieldNode.get_json_field`) -/

/-- The `for part in path_parts` loop of `get_json_field`, followed by the
result shaping.  `field_path` is only used in the not-found message. -/
def gjfLoop (field_path default_value : String) (return_as_string : Bool) :
    Json → List String → String × String × Bool
  | current, [] =>
    (if return_as_string then
       match current with
       | Json.arr _ => jsonDumps current
       | Json.obj _ => jsonDumps current
       | _ => pyStr current
     else pyStr current, "", true)
  | current, part :: rest =>
    match current with
    | Json.obj fs =>
      if dictContains fs part then
        gjfLoop field_path default_value return_as_string
          ((dictGet? fs part).getD Json.null) rest
      else
        (default_value,
         "Field '" ++ part ++ "' not found in path '" ++ field_path ++ "'", false)
    | Json.arr xs =>
      match pyInt? part with
      | some i =>
        if 0 ≤ i ∧ i < (xs.length : Int) then
          gjfLoop field_path default_value return_as_string
            (xs.getD i.toNat Json.null) rest
        else (default_value, "List index " ++ intToString i ++ " out of range", false)
      | none =>
        (default_value, "Cannot access list with key '" ++ part ++ "'", false)
    | _ =>
      (default_value,
       "Field '" ++ part ++ "' not found in path '" ++ field_path ++ "'", false)

/-- `HTTPGetJSONFieldNode.get_json_field`.  `json.loads` is external; its
outcome is the `parsed` argument (`Except.error` is a `JSONDecodeError` with
its message). -/
def get_json_field (parsed : Except String Json) (field_path : String)
    (default_value : String) (return_as_string : Bool) : String × String × Bool :=
  match parsed with
  | Except.error e => (default_value, "Invalid JSON format: " ++ e, false)
  | Except.ok data =>
    gjfLoop field_path default_value return_as_string data (splitDot field_path)

/-! ## JSON field extractor (`http_json_converter.py`, `HTTPGetJSONField`) -/

/-- `[default] if default else []`: the not-found result of
`_simple_extract` / `_nested_extract` (the default string re-enters the
result list as a Python string). -/
def defaultResult (dflt : String) : List Json :=
  if dflt != "" then [Json.str dflt] else []

/-- The `for part in parts` loop of `HTTPGetJSONField._simple_extract`:
skips `$`-prefixed parts, `dict.get(part, None)` on mappings, bounds-checked
indexing for digit parts on sequences, anything else (including a resolved
`None`) short-circuits to the default result. -/
def simpleExtractLoop (dflt : String) : Json → List String → List Json
  | current, [] => if isNull current then defaultResult dflt else [current]
  | current, part :: rest =>
    if startsDollar part then simpleExtractLoop dflt current rest
    else
      match current with
      | Json.obj fs =>
        let next := (dictGet? fs part).getD Json.null
        if isNull next then defaultResult dflt
        else simpleExtractLoop dflt next rest
      | Json.arr xs =>
        if isDigitStr part then
          let idx := parseDigits part
          let next := if idx < xs.length then xs.getD idx Json.null else Json.null
          if isNull next then defaultResult dflt
          else simpleExtractLoop dflt next rest
        else defaultResult dflt
      | _ => defaultResult dflt

/-- `HTTPGetJSONField._simple_extract`. -/
def simple_extract (data : Json) (path dflt : String) : List Json :=
  simpleExtractLoop dflt data (splitDot (pyStrip path))

/-- The token loop of `HTTPGetJSONField._nested_extract`: identical to the
simple loop except that it skips empty parts instead of `$`-prefixed ones. -/
def nestedExtractLoop (dflt : String) : Json → List String → List Json
  | current, [] => if isNull current then defaultResult dflt else [current]
  | current, part :: rest =>
    if part == "" then nestedExtractLoop dflt current rest
    else
      match current with
      | Json.obj fs =>
        let next := (dictGet? fs part).getD Json.null
        if isNull next then defaultResult dflt
        else nestedExtractLoop dflt next rest
      | Json.arr xs =>
        if isDigitStr part then
          let idx := parseDigits part
          let next := if idx < xs.length then xs.getD idx Json.null else Json.null
          if isNull next then defaultResult dflt
          else nestedExtractLoop dflt next rest
        else defaultResult dflt
      | _ => defaultResult dflt

/-- One left-to-right scan of `re.findall` for the `_nested_extract` pattern
(quoted bracket, numeric bracket, dot segment, bare segment, in that
alternative order; a position matching no alternative is skipped).  Fuel is
the remaining input length; every step consumes at least one character. -/
def nestedTokensAux : Nat → List Char → List String
  | 0, _ => []
  | _, [] => []
  | fuel + 1, c :: rest =>
    match c with
    | '[' =>
      match rest with
      | '\'' :: r2 =>
        let content := r2.takeWhile (fun d => d ≠ '\'')
        let r3 := r2.dropWhile (fun d => d ≠ '\'')
        match r3 with
        | '\'' :: ']' :: r4 =>
          if !content.isEmpty then String.mk content :: nestedTokensAux fuel r4
          else nestedTokensAux fuel rest
        | _ => nestedTokensAux fuel rest
      | d :: _ =>
        if isDigitCh d then
          let digits := rest.takeWhile isDigitCh
          let r3 := rest.dropWhile isDigitCh
          match r3 with
          | ']' :: r4 => String.mk digits :: nestedTokensAux fuel r4
          | _ => nestedTokensAux fuel rest
        else nestedTokensAux fuel rest
      | [] => []
    | '.' =>
      let seg := rest.takeWhile (fun d => d ≠ '.' ∧ d ≠ '[')
      let r2 := rest.dropWhile (fun d => d ≠ '.' ∧ d ≠ '[')
      if !seg.isEmpty then String.mk seg :: nestedTokensAux fuel r2
      else nestedTokensAux fuel rest
    | _ =>
      let seg := (c :: rest).takeWhile (fun d => d ≠ '.' ∧ d ≠ '[')
      let r2 := (c :: rest).dropWhile (fun d => d ≠ '.' ∧ d ≠ '[')
      String.mk seg :: nestedTokensAux fuel r2

/-- `HTTPGetJSONField._nested_extract`: strip, drop one leading `$`,
tokenize, then run the loop. -/
def nested_extract (data : Json) (path dflt : String) : List Json :=
  let p := pyStrip path
  let p2 : List Char := if startsDollar p then p.data.tail else p.data
  nestedExtractLoop dflt data (nestedTokensAux p2.length p2)

/-- The result-shaping tail of `HTTPGetJSONField.extract_field` (the code
after `results` has been computed).  `json.dumps(..., indent=2)` only ever
feeds display strings, never the control flow; it is modelled by the compact
`jsonDumps`. -/
def extract_field_tail (results : List Json) (default_value return_type : String)
    (multiple_results : Bool) : String × String × Nat :=
  if results.isEmpty then (default_value, default_value, 0)
  else if multiple_results then
    (jsonDumps (Json.arr results), jsonDumps (Json.arr results), results.length)
  else
    let first := results.headD Json.null
    if return_type == "string" then (pyStr first, pyStr first, results.length)
    else if return_type == "json" then (jsonDumps first, jsonDumps first, results.length)
    else
      match first with
      | Json.arr _ => (jsonDumps first, jsonDumps first, results.length)
      | Json.obj _ => (jsonDumps first, jsonDumps first, results.length)
      | _ => (pyStr first, pyStr first, results.length)

/-- `HTTPGetJSONField.extract_field` for the `simple` and `nested` methods.
The `jsonpath` method drives the external `jsonpath_ng` library and falls
back to `_simple_extract` when it is unavailable or errors; the fallback is
what is modelled for any other method string. -/
def extract_field (parsed : Except String Json)
    (field_path extraction_method default_value return_type : String)
    (multiple_results : Bool) : String × String × Nat :=
  match parsed with
  | Except.error e =>
    ("JSON parsing error: " ++ e, "JSON parsing error: " ++ e, 0)
  | Except.ok data =>
    let results :=
      if extraction_method == "nested" then nested_extract data field_path default_value
      else simple_extract data field_path default_value
    extract_field_tail results default_value return_type multiple_results

/-- The document of C9's round-trip example: the JSON value written
`\x7b"a": \x7b"b": [42, 43]\x7d\x7d`. -/
def exampleDoc : Json :=
  Json.obj [("a", Json.obj [("b", Json.arr [Json.num 42, Json.num 43])])]

/-- Spec-side definition (from the claim's wording, for C10): pure path
navigation in which a step succeeds exactly when the key exists in the
mapping / the digit index is in range for the sequence. -/
def resolveStep : Json → String → Option Json
  | Json.obj fs, part => dictGet? fs part
  | Json.arr xs, part =>
    if isDigitStr part && decide (parseDigits part < xs.length) then
      some (xs.getD (parseDigits part) Json.null)
    else none
  | _, _ => none

/-- Spec-side definition (from the claim's wording, for C10): resolve a whole
path step by step. -/
def resolvePath : Json → List String → Option Json
  | v, [] => some v
  | v, p :: rest =>
    match resolveStep v p with
    | some v2 => resolvePath v2 rest
    | none => none

/-! ## Authentication (`http_auth.py`, `HTTPAuth`)

The client's mutable state relevant to auth: its default-header dict and its
`session.auth` basic-credential slot.  `apply_auth` additionally returns the
list of HTTP calls it performs over the network, so that "performs a
token-acquisition POST" is expressible; its Python body contains no such
call. -/

/-- The header dict and basic-auth slot of an `HTTPClient`'s session. -/
structure ClientState where
  headers : List (String × String)
  auth : Option (String × String)
deriving DecidableEq

/-- `HTTPClient.set_headers`: `session.headers.update(headers)` (updating
with an empty dict is a no-op, matching the `if headers:` guard). -/
def set_headers (c : ClientState) (hs : List (String × String)) : ClientState :=
  { c with headers := hs.foldl (fun m p => dictInsert m p.1 p.2) c.headers }

/-- `HTTPClient.set_auth`. -/
def set_auth (c : ClientState)
    (auth_type username password token api_key api_key_header : String) :
    ClientState :=
  if auth_type == "basic" && username != "" && password != "" then
    { c with auth := some (username, password) }
  else if auth_type == "bearer" && token != "" then
    { c with headers := dictInsert c.headers "Authorization" ("Bearer " ++ token) }
  else if auth_type == "api_key" && api_key != "" then
    { c with headers := dictInsert c.headers api_key_header api_key }
  else if auth_type == "token" && token != "" then
    { c with headers := dictInsert c.headers "Authorization" ("Token " ++ token) }
  else c

/-- The auth-config dict built by `HTTPAuth.create_auth`.  The
`custom_headers` entry is a JSON string fed to the external `json.loads`; it
is carried here as its parse outcome: `none` when it is empty, `"\x7b\x7d"`,
or malformed (all skipped by `apply_auth`), `some hs` for a parsed non-empty
object. -/
structure AuthConfig where
  type : String
  username : String := ""
  password : String := ""
  token : String := ""
  api_key : String := ""
  api_key_header : String := "X-API-Key"
  client_id : String := ""
  client_secret : String := ""
  oauth_token_url : String := ""
  scope : String := ""
  custom_headers : Option (List (String × String)) := none

/-- One outgoing HTTP call (method, URL, form payload). -/
structure HttpCall where
  method : String
  url : String
  payload : List (String × String)
deriving DecidableEq

/-- `HTTPAuth.apply_auth`: dispatch on the auth type, then merge custom
headers.  The returned list is the trace of network calls the procedure
makes — the source performs none (its `oauth2` branch only applies
`auth_config["token"]` as a bearer token when that is non-empty). -/
def apply_auth (c : ClientState) (cfg : AuthConfig) : ClientState × List HttpCall :=
  let c1 :=
    if cfg.type == "basic" then
      (if cfg.username != "" && cfg.password != "" then
        set_auth c "basic" cfg.username cfg.password "" "" "X-API-Key"
       else c)
    else if cfg.type == "bearer" then
      (if cfg.token != "" then set_auth c "bearer" "" "" cfg.token "" "X-API-Key" else c)
    else if cfg.type == "api_key" then
      (if cfg.api_key != "" then
        set_auth c "api_key" "" "" "" cfg.api_key cfg.api_key_header
       else c)
    else if cfg.type == "token" then
      (if cfg.token != "" then set_auth c "token" "" "" cfg.token "" "X-API-Key" else c)
    else if cfg.type == "oauth2" then
      (if cfg.token != "" then set_auth c "bearer" "" "" cfg.token "" "X-API-Key" else c)
    else c
  let c2 :=
    match cfg.custom_headers with
    | some hs => set_headers c1 hs
    | none => c1
  (c2, [])

/-- The `data` dict that `HTTPAuth.get_oauth2_token` POSTs to the token URL:
`grant_type=client_credentials`, `client_id`, `client_secret`, and `scope`
when non-empty. -/
def oauth2TokenRequest (client_id client_secret token_url scope : String) :
    HttpCall :=
  ⟨"POST", token_url,
    [("grant_type", "client_credentials"), ("client_id", client_id),
     ("client_secret", client_secret)] ++
      (if scope != "" then [("scope", scope)] else [])⟩

/-- `HTTPAuth.get_oauth2_token`, with the external `requests.post` round-trip
abstracted as `response`: `Except.error e` covers a raised transport error, a
`raise_for_status` on a non-2xx reply, or an invalid JSON body (the `except`
clause), `Except.ok j` a parsed JSON body.  Returns `(success, token-or\
-message)` and touches no client. -/
def get_oauth2_token (response : Except String Json) : Bool × String :=
  match response with
  | Except.error e => (false, "OAuth2 token request failed: " ++ e)
  | Except.ok j =>
    match j with
    | Json.obj fs =>
      match dictGet? fs "access_token" with
      | some v =>
        if jsonTruthy v then (true, pyStr v) else (false, "No access token in response")
      | none => (false, "No access token in response")
    | _ => (false, "No access token in response")

/-! ## Form-data merge (`http_form_data_concat.py`, `HTTPFormDataConcat`)

Form values are opaque Python objects; the merge never inspects them, so they
are a type parameter. -/

/-- An `HTTP_FORM_DATA` value: the `data` and `files` dicts. -/
structure FormBody (α : Type) where
  data : List (String × α)
  files : List (String × α)

/-- The renamed key `f"\x7bkey\x7d_\x7bsuffix\x7d"`. -/
def suffixKey (k : String) (s : Nat) : String := k ++ "_" ++ natToString s

/-- The `while new_key in combined_data[...]` probe: try `key_s`, `key_s+1`,
… until an unused name appears.  Fuel bounds the search; `keys.length + 1`
always suffices because the candidates are pairwise distinct. -/
def probeFrom (keys : List String) (k : String) : Nat → Nat → String
  | s, 0 => suffixKey k s
  | s, fuel + 1 =>
    if keys.contains (suffixKey k s) then probeFrom keys k (s + 1) fuel
    else suffixKey k s

/-- The fresh name chosen for a colliding key (`suffix = 1` start). -/
def probe (keys : List String) (k : String) : String :=
  probeFrom keys k 1 (keys.length + 1)

/-- One namespace of the merge loop of `concat_form_data`: fold the incoming
dict's entries into the accumulator; on a collision with
`overwrite_duplicates=False` the incoming entry is stored under the probed
fresh key, otherwise a plain dict store. -/
def mergeInto {α : Type} (overwrite : Bool)
    (combined incoming : List (String × α)) : List (String × α) :=
  incoming.foldl
    (fun acc kv =>
      if dictContains acc kv.1 && !overwrite then
        dictInsert acc (probe (dictKeys acc) kv.1) kv.2
      else dictInsert acc kv.1 kv.2)
    combined

/-- `HTTPFormDataConcat.concat_form_data`: start from empty `data`/`files`,
process the up-to-five inputs left to right, skipping absent ones. -/
def concat_form_data {α : Type} (fd1 : FormBody α)
    (fd2 fd3 fd4 fd5 : Option (FormBody α)) (overwrite_duplicates : Bool) :
    FormBody α :=
  ([some fd1, fd2, fd3, fd4, fd5].filterMap id).foldl
    (fun acc fd =>
      ⟨mergeInto overwrite_duplicates acc.data fd.data,
       mergeInto overwrite_duplicates acc.files fd.files⟩)
    ⟨[], []⟩

/-- Spec-side definition (from the claim's wording, for C7): the value for
`k` from the last (right-most) input map that defines `k`. -/
def lastDefined {α : Type} (maps : List (List (String × α))) (k : String) :
    Option α :=
  maps.reverse.findSome? (fun m => dictGet? m k)

/-! ## Session registry (`http_session_manager.py`, `HTTPSessionManager`)

`HTTPClient()` constructions are numbered: the registry maps a session name
to the id of its client, and `counter` is the number of clients constructed
so far (fresh ids come from it).  Client identity is all C8 is about; the
per-call reconfiguration of the stored client mutates that client in place
and never constructs a new one. -/

/-- The `_sessions` table plus the construction counter. -/
structure RegState where
  sessions : List (String × Nat)
  counter : Nat
deriving DecidableEq

/-- `HTTPSessionManager.create_session`, reduced to its registry effect: a
missing name gets a newly constructed client registered; the (existing or
new) client of that name is returned. -/
def create_session (st : RegState) (name : String) : RegState × Nat :=
  let st1 :=
    if dictContains st.sessions name then st
    else ⟨st.sessions ++ [(name, st.counter)], st.counter + 1⟩
  (st1, (dictGet? st1.sessions name).getD 0)

/-- `HTTPSessionManager.close_session`: close and delete the named entry when
present, otherwise do nothing. -/
def close_session (st : RegState) (name : String) : RegState :=
  if dictContains st.sessions name then
    ⟨st.sessions.eraseP (fun p => p.1 == name), st.counter⟩
  else st

/-- Registry well-formedness: names unique (it is a dict) and every
registered id was produced by the counter. -/
def RegWF (st : RegState) : Prop :=
  (dictKeys st.sessions).Nodup ∧ ∀ p ∈ st.sessions, p.2 < st.counter

/-!
# Theorems

General-purpose lemmas about the embedding first, then one theorem (plus
witness / counterexample where applicable) per spec claim.
-/

/-! ## Decimal-rendering lemmas -/

theorem digitsVal_go (cs : List Char) (a : Nat) :
    cs.foldl (fun a c => 10 * a + (c.toNat - 48)) a =
      a * 10 ^ cs.length + digitsVal cs := by
  induction cs generalizing a with
  | nil =>
    show a = a * 10 ^ (0 : Nat) + digitsVal []
    have h0 : digitsVal [] = 0 := rfl
    rw [h0]
    ring
  | cons c rest ih =>
    have h2 : digitsVal (c :: rest) =
        (c.toNat - 48) * 10 ^ rest.length + digitsVal rest := by
      show List.foldl _ _ (c :: rest) = _
      rw [List.foldl_cons, ih]
      ring_nf
    rw [List.foldl_cons, ih, h2, List.length_cons]
    ring

theorem digitsVal_append_singleton (cs : List Char) (c : Char) :
    digitsVal (cs ++ [c]) = 10 * digitsVal cs + (c.toNat - 48) := by
  simp [digitsVal, List.foldl_append]

theorem digitChar_toNat (n : Nat) (h : n < 10) : (digitChar n).toNat = 48 + n := by
  interval_cases n <;> rfl

theorem digitsVal_natToCharsAux :
    ∀ fuel n, n < fuel → digitsVal (natToCharsAux fuel n) = n := by
  intro fuel
  induction fuel with
  | zero => intro n h; omega
  | succ fuel ih =>
    intro n h
    by_cases h10 : n < 10
    · simp [natToCharsAux, h10, digitsVal, digitChar_toNat n h10]
    · have hpos : 10 ≤ n := by omega
      have hdiv : n / 10 < fuel := by
        have h1 : n / 10 < n := Nat.div_lt_self (by omega) (by omega)
        omega
      simp only [natToCharsAux, if_neg h10, digitsVal_append_singleton, ih _ hdiv]
      have hm : (digitChar (n % 10)).toNat = 48 + n % 10 :=
        digitChar_toNat _ (Nat.mod_lt n (by omega))
      omega

theorem natToString_injective {a b : Nat} (h : natToString a = natToString b) :
    a = b := by
  have hd : natToCharsAux (a + 1) a = natToCharsAux (b + 1) b :=
    congrArg String.data h
  have ha := digitsVal_natToCharsAux (a + 1) a (Nat.lt_succ_self a)
  have hb := digitsVal_natToCharsAux (b + 1) b (Nat.lt_succ_self b)
  rw [← ha, ← hb, hd]

/-! ## Retry-loop lemmas -/

theorem mrLoop_all_exn (e : Nat → String) (N : Nat) (d : ℚ) :
    ∀ rem attempt lastE,
      mrLoop (fun i => Outcome.exn (e i)) N d attempt rem lastE =
        ⟨Except.error
          (match rem with
           | 0 => lastE.getD "HTTP request failed after all retries"
           | r + 1 => e (attempt + r)),
         rem, sleepsFrom N d attempt rem⟩ := by
  intro rem
  induction rem with
  | zero => intro attempt lastE; rfl
  | succ rem ih =>
    intro attempt lastE
    show (⟨_, _, _⟩ : ReqResult) = _
    rw [ih (attempt + 1) (some (e attempt))]
    cases rem with
    | zero => simp [sleepsFrom]
    | succ r =>
      have h2 : attempt + 1 + r = attempt + (r + 1) := by omega
      simp [sleepsFrom, h2]

theorem sleepsFrom_eq (N : Nat) (d : ℚ) :
    ∀ rem attempt,
      sleepsFrom N d attempt rem =
        (List.range rem).filterMap
          (fun j => if attempt + j < N - 1 then some (d * (((attempt + j : Nat) : ℚ) + 1))
                    else none) := by
  intro rem
  induction rem with
  | zero => intro attempt; rfl
  | succ rem ih =>
    intro attempt
    rw [List.range_succ_eq_map, List.filterMap_cons, List.filterMap_map]
    show sleepsFrom N d attempt (rem + 1) = _
    rw [sleepsFrom, ih (attempt + 1)]
    have hfun :
        ((fun j => if attempt + j < N - 1 then
            some (d * (((attempt + j : Nat) : ℚ) + 1)) else none) ∘ Nat.succ) =
          (fun j => if attempt + 1 + j < N - 1 then
            some (d * (((attempt + 1 + j : Nat) : ℚ) + 1)) else none) := by
      funext j
      have harg : attempt + Nat.succ j = attempt + 1 + j := by omega
      simp only [Function.comp_apply, harg]
    rw [hfun]
    cases hlt : decide (attempt < N - 1) with
    | true =>
      have h := of_decide_eq_true hlt
      simp only [if_pos h, Nat.add_zero, if_pos (by omega : attempt + 0 < N - 1)]
      rfl
    | false =>
      have h := of_decide_eq_false hlt
      simp only [if_neg h, Nat.add_zero, if_neg (by omega : ¬attempt + 0 < N - 1)]
      rfl

theorem filterMap_range_if_lt {β : Type} (g : Nat → β) :
    ∀ n m, (List.range n).filterMap (fun j => if j < m then some (g j) else none) =
      (List.range (min n m)).map g := by
  intro n
  induction n with
  | zero => intro m; simp
  | succ n ih =>
    intro m
    rw [List.range_succ, List.filterMap_append]
    by_cases h : n < m
    · have hmin : min (n + 1) m = n + 1 := by omega
      have hmin2 : min n m = n := by omega
      rw [hmin, ih m, hmin2, List.range_succ, List.map_append]
      simp [h]
    · have hmin : min (n + 1) m = min n m := by omega
      rw [hmin, ih m]
      simp [h]

theorem mrLoop_resp (transport : Nat → Outcome) (N : Nat) (d : ℚ) (r : Response) :
    ∀ k rem attempt lastE, k < rem →
      (∀ i, i < k → ∃ e, transport (attempt + i) = Outcome.exn e) →
      transport (attempt + k) = Outcome.resp r →
      (mrLoop transport N d attempt rem lastE).result =
          Except.ok (r.status, r.headers, classifyBody r) ∧
        (mrLoop transport N d attempt rem lastE).attempts = k + 1 := by
  intro k
  induction k with
  | zero =>
    intro rem attempt lastE hk _ hresp
    cases rem with
    | zero => omega
    | succ rem =>
      rw [Nat.add_zero] at hresp
      simp [mrLoop, hresp]
  | succ k ih =>
    intro rem attempt lastE hk hfail hresp
    cases rem with
    | zero => omega
    | succ rem =>
      obtain ⟨e0, he0⟩ := hfail 0 (Nat.succ_pos k)
      rw [Nat.add_zero] at he0
      have hfail' : ∀ i, i < k → ∃ e, transport (attempt + 1 + i) = Outcome.exn e := by
        intro i hi
        obtain ⟨e, he⟩ := hfail (i + 1) (by omega)
        exact ⟨e, by rw [show attempt + 1 + i = attempt + (i + 1) by omega]; exact he⟩
      have hresp' : transport (attempt + 1 + k) = Outcome.resp r := by
        rw [show attempt + 1 + k = attempt + (k + 1) by omega]; exact hresp
      have h := ih rem (attempt + 1) (some e0) (by omega) hfail' hresp'
      simp only [mrLoop, he0]
      exact ⟨h.1, by rw [h.2]⟩

theorem make_request_all_exn_eq (N : Nat) (hN : 1 ≤ N) (d : ℚ)
    (e : Nat → String) :
    make_request N d (fun i => Outcome.exn (e i)) =
      ⟨Except.error (e (N - 1)), N,
       (List.range (N - 1)).map (fun k : Nat => d * ((k : ℚ) + 1))⟩ := by
  obtain ⟨m, rfl⟩ : ∃ m, N = m + 1 := ⟨N - 1, by omega⟩
  rw [make_request, mrLoop_all_exn]
  simp only [Nat.zero_add, Nat.add_sub_cancel]
  rw [sleepsFrom_eq]
  have hfun :
      (fun j => if 0 + j < m + 1 - 1 then
          some (d * (((0 + j : Nat) : ℚ) + 1)) else none) =
        (fun j => if j < m then some ((fun k : Nat => d * ((k : ℚ) + 1)) j) else none) := by
    funext j
    simp [Nat.zero_add]
  rw [hfun, filterMap_range_if_lt (fun k : Nat => d * ((k : ℚ) + 1)) (m + 1) m]
  have : min (m + 1) m = m := by omega
  rw [this]

/-! ## C1: exhausted retries — N attempts, linear backoff, last error raised -/

/-- C1.  With `maxRetries = N ≥ 1` and a transport failing on every attempt
(attempt `i` raising `e i`), `make_request` performs exactly `N` attempts,
raises the exception of the last attempt (`e (N-1)`), and its sleep trace is
`[d*1, d*2, …, d*(N-1)]`: one sleep of `retryDelaySeconds * k` after failed
attempt number `k` (that is, before attempt `k+1`), none after the final
attempt. -/
theorem make_request_exhausts_retries (N : Nat) (hN : 1 ≤ N) (d : ℚ)
    (e : Nat → String) :
    make_request N d (fun i => Outcome.exn (e i)) =
      ⟨Except.error (e (N - 1)), N,
       (List.range (N - 1)).map (fun k : Nat => d * ((k : ℚ) + 1))⟩ :=
  make_request_all_exn_eq N hN d e

/-- Witness for C1 at `N = 3`, `d = 1`. -/
theorem make_request_exhausts_retries_witness :
    1 ≤ 3 ∧
      make_request 3 1 (fun _ => Outcome.exn "connection refused") =
        ⟨Except.error "connection refused", 3,
         (List.range 2).map (fun k : Nat => 1 * ((k : ℚ) + 1))⟩ :=
  ⟨by omega, make_request_exhausts_retries 3 (by omega) 1 (fun _ => "connection refused")⟩

/-! ## C2: HTTP status codes are never retried and never raised -/

/-- C2.  If the transport produces a response `r` on attempt `k` (of any
status code whatsoever, 4xx/5xx included) after transport failures on
attempts `0..k-1`, then `make_request` returns the normal result triple
`(statusCode, headers, body)` built from `r`, having performed exactly
`k + 1` attempts: a response ends the loop immediately, with no retry and no
raised error. -/
theorem make_request_returns_any_status (N k : Nat) (d : ℚ)
    (transport : Nat → Outcome) (r : Response) (hk : k < N)
    (hfail : ∀ i, i < k → ∃ e, transport i = Outcome.exn e)
    (hresp : transport k = Outcome.resp r) :
    (make_request N d transport).result =
        Except.ok (r.status, r.headers, classifyBody r) ∧
      (make_request N d transport).attempts = k + 1 := by
  have h := mrLoop_resp transport N d r k N 0 none hk
    (by intro i hi; simpa using hfail i hi) (by simpa using hresp)
  exact h

/-- Witness for C2: a 404 response on the very first attempt is returned as a
normal result after one attempt. -/
theorem make_request_returns_any_status_witness :
    (0 : Nat) < 1 ∧
      (make_request 1 0 (fun _ =>
            Outcome.resp ⟨404, [("content-type", "text/plain")], "not found", []⟩)).result =
          Except.ok (404, [("content-type", "text/plain")], Content.textBody "not found") ∧
        (make_request 1 0 (fun _ =>
            Outcome.resp ⟨404, [("content-type", "text/plain")], "not found", []⟩)).attempts = 1 := by
  refine ⟨by omega, ?_⟩
  have h := make_request_returns_any_status 1 0 0
    (fun _ => Outcome.resp ⟨404, [("content-type", "text/plain")], "not found", []⟩)
    ⟨404, [("content-type", "text/plain")], "not found", []⟩
    (by omega) (fun i hi => absurd hi (by omega)) rfl
  exact h

/-! ## C3: configuration errors are NOT reported immediately — they are
retried like any other exception -/

/-- Counterexample to C3.  A transport that raises a malformed-URL
configuration error (`requests.exceptions.MissingSchema`) on every attempt:
with `maxRetries = 3` the client performs 3 attempts and 2 backoff sleeps
before reporting the error, contradicting "reported immediately on the first
attempt, without any retry attempt being consumed and without any backoff
sleep". -/
theorem config_error_counterexample :
    (make_request 3 1 (fun _ =>
        Outcome.exn "MissingSchema: Invalid URL 'bad url'")).attempts = 3 ∧
      (make_request 3 1 (fun _ =>
          Outcome.exn "MissingSchema: Invalid URL 'bad url'")).sleeps.length = 2 ∧
      (make_request 3 1 (fun _ =>
          Outcome.exn "MissingSchema: Invalid URL 'bad url'")).result =
        Except.error "MissingSchema: Invalid URL 'bad url'" :=
  ⟨rfl, rfl, rfl⟩

/-- C3 as amended.  `make_request` has a single `except Exception` handler,
so a configuration error raised by the transport (malformed URL, unsupported
method) is treated exactly like a transport error: it is retried up to
`maxRetries` times with the linear backoff sleeps, and only the last
exception is raised at the end. -/
theorem make_request_config_error_retried (N : Nat) (hN : 1 ≤ N) (d : ℚ)
    (e : String) :
    make_request N d (fun _ => Outcome.exn e) =
      ⟨Except.error e, N,
       (List.range (N - 1)).map (fun k : Nat => d * ((k : ℚ) + 1))⟩ :=
  make_request_all_exn_eq N hN d (fun _ => e)

/-- Witness for the amended C3 at `N = 2`. -/
theorem make_request_config_error_retried_witness :
    1 ≤ 2 ∧
      make_request 2 1 (fun _ => Outcome.exn "MissingSchema: Invalid URL") =
        ⟨Except.error "MissingSchema: Invalid URL", 2,
         (List.range 1).map (fun k : Nat => 1 * ((k : ℚ) + 1))⟩ :=
  ⟨by omega, make_request_config_error_retried 2 (by omega) 1 "MissingSchema: Invalid URL"⟩

/-! ## C4: binary classification hinges on the exact lowercase header key -/

/-- Counterexample to C4.  A response delivered with header name
`Content-Type` (the capitalisation every real server uses) and value
`image/png`: the body comes back as decoded text, not raw bytes, because
`dict(response.headers).get('content-type', '')` is a case-sensitive lookup
that misses the `Content-Type` key.  This contradicts "for any case/spelling
of the header name under which the transport delivers it". -/
theorem binary_classification_counterexample :
    (make_request 1 0 (fun _ =>
        Outcome.resp ⟨200, [("Content-Type", "image/png")], "decoded text",
          [137, 80, 78, 71]⟩)).result =
        Except.ok (200, [("Content-Type", "image/png")],
          Content.textBody "decoded text") ∧
      Content.textBody "decoded text" ≠ Content.binaryBody [137, 80, 78, 71] :=
  ⟨rfl, by decide⟩

/-- C4 as amended.  The body of a `make_request` response is retained as raw
bytes iff the header dict as delivered binds the exact key `content-type`
(lowercase) to a value that, lowercased, contains `image/` or
`application/octet-stream`; otherwise it is the decoded text.  `get_binary`
returns raw bytes for every response regardless of content type. -/
theorem make_request_binary_classification (N : Nat) (hN : 1 ≤ N) (d : ℚ)
    (r : Response) :
    ((make_request N d (fun _ => Outcome.resp r)).result =
        Except.ok (r.status, r.headers, Content.binaryBody r.contentOf) ↔
      isBinaryCT (contentTypeOf r.headers) = true) ∧
    (isBinaryCT (contentTypeOf r.headers) = false →
      (make_request N d (fun _ => Outcome.resp r)).result =
        Except.ok (r.status, r.headers, Content.textBody r.textOf)) ∧
    (get_binary N d (fun _ => Outcome.resp r)).result =
      Except.ok (r.status, r.headers, r.contentOf) := by
  obtain ⟨m, rfl⟩ : ∃ m, N = m + 1 := ⟨N - 1, by omega⟩
  have hmr : (make_request (m + 1) d (fun _ => Outcome.resp r)).result =
      Except.ok (r.status, r.headers, classifyBody r) := rfl
  have hgb : (get_binary (m + 1) d (fun _ => Outcome.resp r)).result =
      Except.ok (r.status, r.headers, r.contentOf) := rfl
  refine ⟨?_, ?_, hgb⟩
  · constructor
    · intro h
      by_contra hct
      have hct' : isBinaryCT (contentTypeOf r.headers) = false := by
        cases hcase : isBinaryCT (contentTypeOf r.headers) with
        | true => exact absurd hcase hct
        | false => rfl
      rw [hmr] at h
      simp only [Except.ok.injEq, Prod.mk.injEq] at h
      obtain ⟨-, -, hcb⟩ := h
      rw [classifyBody, hct'] at hcb
      simp at hcb
    · intro hct
      rw [hmr, classifyBody, hct]
      simp
  · intro hct
    rw [hmr, classifyBody, hct]
    simp

/-- Witness for the amended C4: a lowercase `content-type: image/png` header
gives a binary body; the same response through `get_binary` gives raw
bytes. -/
theorem make_request_binary_classification_witness :
    1 ≤ 1 ∧
      ((make_request 1 0 (fun _ =>
            Outcome.resp ⟨200, [("content-type", "image/png")], "T", [7, 8]⟩)).result =
          Except.ok (200, [("content-type", "image/png")], Content.binaryBody [7, 8]) ↔
        isBinaryCT (contentTypeOf [("content-type", "image/png")]) = true) ∧
      (get_binary 1 0 (fun _ =>
          Outcome.resp ⟨200, [("content-type", "image/png")], "T", [7, 8]⟩)).result =
        Except.ok (200, [("content-type", "image/png")], [7, 8]) := by
  have h := make_request_binary_classification 1 (by omega) 0
    ⟨200, [("content-type", "image/png")], "T", [7, 8]⟩
  exact ⟨by omega, h.1, h.2.2⟩

/-! ## C5: applying OAuth2 auth does not perform the token POST -/

/-- Counterexample to C5.  A complete OAuth2 `AuthSpec` (client id, secret,
token URL and scope all present, no stored token): `apply_auth` performs no
HTTP call at all — in particular no POST to the token URL — and returns the
client unmodified, contradicting "applying the auth to a client performs a
synchronous token-acquisition POST to tokenURL". -/
theorem apply_auth_oauth2_counterexample :
    apply_auth ⟨[], none⟩
        ⟨"oauth2", "", "", "", "", "X-API-Key", "cid", "csec",
         "https://auth.example/token", "read", none⟩ =
      (⟨[], none⟩, []) := by decide

/-- C5 as amended.  `apply_auth` on an `oauth2` config performs no network
call: it only applies the config's `token` field (when non-empty) as a
`Authorization: Bearer` header.  The client-credentials POST exists only in
the separate, uncalled helper `get_oauth2_token`, whose payload carries
`grant_type=client_credentials`, `client_id`, `client_secret`, and `scope`
exactly when non-empty; from the POST's outcome it returns
`(true, access_token)` on a JSON body with a non-empty `access_token`, and
`(false, descriptive message)` on a request failure — and it touches no
client either way. -/
theorem apply_auth_oauth2_spec (c : ClientState) (cfg : AuthConfig)
    (hty : cfg.type = "oauth2") :
    (apply_auth c cfg).2 = [] ∧
    (cfg.custom_headers = none →
      (apply_auth c cfg).1 =
        (if cfg.token != "" then
          { c with headers := dictInsert c.headers "Authorization" ("Bearer " ++ cfg.token) }
         else c)) ∧
    (∀ cid csec url scope, scope ≠ "" →
      (oauth2TokenRequest cid csec url scope).payload =
        [("grant_type", "client_credentials"), ("client_id", cid),
         ("client_secret", csec), ("scope", scope)]) ∧
    (∀ cid csec url,
      (oauth2TokenRequest cid csec url "").payload =
        [("grant_type", "client_credentials"), ("client_id", cid),
         ("client_secret", csec)]) ∧
    (∀ t, t ≠ "" →
      get_oauth2_token (Except.ok (Json.obj [("access_token", Json.str t)])) = (true, t)) ∧
    (∀ e, get_oauth2_token (Except.error e) =
      (false, "OAuth2 token request failed: " ++ e)) := by
  refine ⟨rfl, ?_, ?_, ?_, ?_, fun e => rfl⟩
  · intro hch
    simp only [apply_auth, set_auth, hty, hch]
    cases hb : (cfg.token != "") with
    | false => simp [hb]
    | true => simp [hb]
  · intro cid csec url scope hs
    simp [oauth2TokenRequest, bne_iff_ne, hs]
  · intro cid csec url
    simp [oauth2TokenRequest]
  · intro t ht
    simp [get_oauth2_token, dictGet?, jsonTruthy, pyStr, bne_iff_ne, ht]

/-- Witness for the amended C5: a stored token is applied as a Bearer header
without any network call; the helper's request payload and outcomes at
concrete values. -/
theorem apply_auth_oauth2_spec_witness :
    (apply_auth ⟨[], none⟩
        ⟨"oauth2", "", "", "tok", "", "X-API-Key", "cid", "csec",
         "https://auth.example/token", "", none⟩).2 = [] ∧
    (apply_auth ⟨[], none⟩
        ⟨"oauth2", "", "", "tok", "", "X-API-Key", "cid", "csec",
         "https://auth.example/token", "", none⟩).1 =
      (if "tok" != "" then
        { (⟨[], none⟩ : ClientState) with
            headers := dictInsert [] "Authorization" ("Bearer " ++ "tok") }
       else ⟨[], none⟩) ∧
    (oauth2TokenRequest "cid" "csec" "https://auth.example/token" "read").payload =
      [("grant_type", "client_credentials"), ("client_id", "cid"),
       ("client_secret", "csec"), ("scope", "read")] ∧
    get_oauth2_token (Except.ok (Json.obj [("access_token", Json.str "tok")])) =
      (true, "tok") := by
  have h := apply_auth_oauth2_spec ⟨[], none⟩
    ⟨"oauth2", "", "", "tok", "", "X-API-Key", "cid", "csec",
     "https://auth.example/token", "", none⟩ rfl
  exact ⟨h.1, h.2.1 rfl, h.2.2.1 "cid" "csec" "https://auth.example/token" "read" (by decide),
    h.2.2.2.2.1 "tok" (by decide)⟩

/-! ## Dict lemmas -/

theorem dictContains_iff_mem {α : Type} (m : List (String × α)) (k : String) :
    dictContains m k = true ↔ k ∈ dictKeys m := by
  simp [dictContains, dictKeys, List.any_eq_true, List.mem_map, beq_iff_eq]

theorem find?_eq_none_of_not_contains {α : Type} (m : List (String × α))
    (k : String) (h : dictContains m k = false) :
    m.find? (fun p => p.1 == k) = none := by
  rw [List.find?_eq_none]
  intro p hp hbeq
  have hc : dictContains m k = true := List.any_eq_true.mpr ⟨p, hp, hbeq⟩
  rw [hc] at h
  exact Bool.noConfusion h

theorem dictGet?_eq_none {α : Type} (m : List (String × α)) (k : String)
    (h : dictContains m k = false) : dictGet? m k = none := by
  simp [dictGet?, find?_eq_none_of_not_contains m k h]

theorem dictGet?_append_left {α : Type} (m ext : List (String × α)) (k : String)
    (h : dictContains m k = true) : dictGet? (m ++ ext) k = dictGet? m k := by
  rw [dictGet?, dictGet?, List.find?_append]
  obtain ⟨p, hp, hbeq⟩ := List.any_eq_true.mp h
  have hsome : (m.find? (fun p => p.1 == k)).isSome := by
    rw [List.find?_isSome]
    exact ⟨p, hp, hbeq⟩
  obtain ⟨q, hq⟩ := Option.isSome_iff_exists.mp hsome
  rw [hq]
  rfl

theorem dictGet?_map_replace_ne {α : Type} (k k2 : String) (v : α) (hne : k2 ≠ k)
    (m : List (String × α)) :
    dictGet? (m.map (fun p => if p.1 == k then (k, v) else p)) k2 = dictGet? m k2 := by
  induction m with
  | nil => rfl
  | cons p rest ih =>
    by_cases hpk : p.1 = k
    · have hb : (p.1 == k) = true := beq_iff_eq.mpr hpk
      have h1 : (k == k2) = false := beq_eq_false_iff_ne.mpr (Ne.symm hne)
      have h2 : (p.1 == k2) = false := by rw [hpk]; exact h1
      simp [dictGet?, List.find?, hb, h1, h2] at ih ⊢
      exact ih
    · have hb : (p.1 == k) = false := beq_eq_false_iff_ne.mpr hpk
      by_cases ht : p.1 = k2
      · have h2 : (p.1 == k2) = true := beq_iff_eq.mpr ht
        simp [dictGet?, List.find?, hb, h2]
      · have h2 : (p.1 == k2) = false := beq_eq_false_iff_ne.mpr ht
        simp [dictGet?, List.find?, hb, h2] at ih ⊢
        exact ih

theorem dictGet?_map_replace_self {α : Type} (k : String) (v : α)
    (m : List (String × α)) (hc : dictContains m k = true) :
    dictGet? (m.map (fun p => if p.1 == k then (k, v) else p)) k = some v := by
  induction m with
  | nil => simp [dictContains] at hc
  | cons p rest ih =>
    by_cases hpk : p.1 = k
    · have hb : (p.1 == k) = true := beq_iff_eq.mpr hpk
      simp [dictGet?, List.find?, hb]
    · have hb : (p.1 == k) = false := beq_eq_false_iff_ne.mpr hpk
      have hc2 : dictContains rest k = true := by
        rw [dictContains, List.any_cons, hb] at hc
        rw [dictContains]
        simpa using hc
      simp [dictGet?, List.find?, hb] at ih ⊢
      exact ih hc2

theorem dictGet?_dictInsert {α : Type} (m : List (String × α)) (k : String) (v : α)
    (k2 : String) :
    dictGet? (dictInsert m k v) k2 = if k2 = k then some v else dictGet? m k2 := by
  rw [dictInsert]
  by_cases hc : dictContains m k = true
  · rw [if_pos hc]
    by_cases hk2 : k2 = k
    · subst hk2
      rw [if_pos rfl]
      exact dictGet?_map_replace_self k2 v m hc
    · rw [if_neg hk2]
      exact dictGet?_map_replace_ne k k2 v hk2 m
  · have hc' : dictContains m k = false := by
      cases h : dictContains m k with
      | true => exact absurd h hc
      | false => rfl
    rw [if_neg hc]
    by_cases hk2 : k2 = k
    · subst hk2
      rw [if_pos rfl, dictGet?, List.find?_append,
        find?_eq_none_of_not_contains m k2 hc']
      simp [List.find?]
    · rw [if_neg hk2, dictGet?, List.find?_append, dictGet?]
      have h1 : (k == k2) = false := beq_eq_false_iff_ne.mpr (Ne.symm hk2)
      cases hf : m.find? (fun p => p.1 == k2) with
      | none => simp [List.find?, h1]
      | some q => simp [List.find?, h1]

theorem find?_reverse_of_nodup {α : Type} (k : String) :
    ∀ m : List (String × α), (dictKeys m).Nodup →
      m.reverse.find? (fun p => p.1 == k) = m.find? (fun p => p.1 == k) := by
  intro m
  induction m with
  | nil => intro _; rfl
  | cons p rest ih =>
    intro hnd
    rw [dictKeys, List.map_cons, List.nodup_cons] at hnd
    obtain ⟨hnotin, hnd'⟩ := hnd
    rw [List.reverse_cons, List.find?_append]
    by_cases hpk : p.1 = k
    · have hb : (p.1 == k) = true := beq_iff_eq.mpr hpk
      have hrest : dictContains rest k = false := by
        cases h : dictContains rest k with
        | false => rfl
        | true =>
          have := (dictContains_iff_mem rest k).mp h
          rw [← hpk] at this
          exact absurd this hnotin
      have hrev : dictContains rest.reverse k = false := by
        cases h : dictContains rest.reverse k with
        | false => rfl
        | true =>
          have hmem := (dictContains_iff_mem rest.reverse k).mp h
          rw [dictKeys, List.map_reverse, List.mem_reverse, ← dictKeys] at hmem
          have := (dictContains_iff_mem rest k).mpr hmem
          rw [this] at hrest
          exact Bool.noConfusion hrest
      rw [find?_eq_none_of_not_contains rest.reverse k hrev]
      simp [List.find?, hb]
    · have hb : (p.1 == k) = false := beq_eq_false_iff_ne.mpr hpk
      rw [ih hnd']
      cases hf : rest.find? (fun p => p.1 == k) with
      | none => simp [List.find?, hb, hf]
      | some q => simp [List.find?, hb, hf]

/-! ## C8: session registry lifecycle -/

theorem dictContains_append_self {α : Type} (m : List (String × α))
    (name : String) (v : α) : dictContains (m ++ [(name, v)]) name = true := by
  rw [dictContains, List.any_append]
  simp

theorem create_session_of_contains (st : RegState) (name : String)
    (h : dictContains st.sessions name = true) :
    create_session st name = (st, (dictGet? st.sessions name).getD 0) := by
  rw [create_session]
  simp [h]

theorem create_session_of_not_contains (st : RegState) (name : String)
    (h : dictContains st.sessions name = false) :
    create_session st name =
      (⟨st.sessions ++ [(name, st.counter)], st.counter + 1⟩, st.counter) := by
  rw [create_session]
  simp only [h, Bool.false_eq_true, if_false]
  rw [dictGet?, List.find?_append, find?_eq_none_of_not_contains st.sessions name h]
  simp [List.find?]

theorem contains_eraseP_self {α : Type} :
    ∀ m : List (String × α), ∀ name : String, (dictKeys m).Nodup →
      dictContains (m.eraseP (fun p => p.1 == name)) name = false := by
  intro m
  induction m with
  | nil => intro name _; rfl
  | cons p rest ih =>
    intro name hnd
    rw [dictKeys, List.map_cons, List.nodup_cons] at hnd
    obtain ⟨hnotin, hnd'⟩ := hnd
    by_cases hpk : p.1 = name
    · have hb : (p.1 == name) = true := beq_iff_eq.mpr hpk
      rw [List.eraseP_cons, hb, cond_true]
      cases h : dictContains rest name with
      | false => rfl
      | true =>
        have := (dictContains_iff_mem rest name).mp h
        rw [← hpk] at this
        exact absurd this hnotin
    · have hb : (p.1 == name) = false := beq_eq_false_iff_ne.mpr hpk
      rw [List.eraseP_cons, hb, cond_false]
      rw [dictContains, List.any_cons, hb]
      have := ih name hnd'
      rw [dictContains] at this
      simp [this]

/-- C8.  With a well-formed registry: a second `getOrCreate` with the same
name returns the very same registry state and the identical client id —
no second client is ever constructed for a registered name (conjunct 1);
after `close`, a subsequent `getOrCreate` constructs one fresh client (the
counter advances by exactly one) whose id differs from the original client's
(conjuncts 2–3) and registers it under the name (conjunct 4); and `close` of
an absent name is a no-op (conjunct 5). -/
theorem session_registry_lifecycle (st : RegState) (name : String)
    (hwf : RegWF st) :
    create_session (create_session st name).1 name =
      ((create_session st name).1, (create_session st name).2) ∧
    (create_session (close_session (create_session st name).1 name) name).2 ≠
      (create_session st name).2 ∧
    (create_session (close_session (create_session st name).1 name) name).1.counter =
      (close_session (create_session st name).1 name).counter + 1 ∧
    (create_session (close_session (create_session st name).1 name) name).1.sessions =
      (close_session (create_session st name).1 name).sessions ++
        [(name, (close_session (create_session st name).1 name).counter)] ∧
    (dictContains st.sessions name = false → close_session st name = st) := by
  obtain ⟨hnd, hlt⟩ := hwf
  -- facts about the state after the first create
  have hfirst :
      ∃ st1 c1, create_session st name = (st1, c1) ∧
        dictContains st1.sessions name = true ∧ (dictKeys st1.sessions).Nodup ∧
        c1 < st1.counter ∧ (dictGet? st1.sessions name).getD 0 = c1 := by
    cases hc : dictContains st.sessions name with
    | true =>
      refine ⟨st, (dictGet? st.sessions name).getD 0,
        create_session_of_contains st name hc, hc, hnd, ?_, rfl⟩
      obtain ⟨p, hp, hbeq⟩ := List.any_eq_true.mp hc
      have hsome : (st.sessions.find? (fun p => p.1 == name)).isSome := by
        rw [List.find?_isSome]
        exact ⟨p, hp, hbeq⟩
      obtain ⟨q, hq⟩ := Option.isSome_iff_exists.mp hsome
      have hqmem : q ∈ st.sessions := List.mem_of_find?_eq_some hq
      have : dictGet? st.sessions name = some q.2 := by
        rw [dictGet?, hq]
        rfl
      rw [this]
      exact hlt q hqmem
    | false =>
      refine ⟨⟨st.sessions ++ [(name, st.counter)], st.counter + 1⟩, st.counter,
        create_session_of_not_contains st name hc,
        dictContains_append_self st.sessions name st.counter, ?_,
        by show st.counter < st.counter + 1; omega, ?_⟩
      · rw [dictKeys, List.map_append]
        rw [List.nodup_append]
        refine ⟨hnd, List.nodup_singleton name, ?_⟩
        intro x hx hx2
        simp only [List.map_cons, List.map_nil, List.mem_singleton] at hx2
        subst hx2
        have := (dictContains_iff_mem st.sessions x).mpr hx
        rw [this] at hc
        exact Bool.noConfusion hc
      · show (dictGet? (st.sessions ++ [(name, st.counter)]) name).getD 0 = st.counter
        rw [dictGet?, List.find?_append,
          find?_eq_none_of_not_contains st.sessions name hc]
        simp [List.find?]
  obtain ⟨st1, c1, hcr, hc1, hnd1, hc1lt, hget1⟩ := hfirst
  rw [hcr]
  -- the close of the registered name
  have hclose : close_session st1 name =
      ⟨st1.sessions.eraseP (fun p => p.1 == name), st1.counter⟩ := by
    rw [close_session, if_pos hc1]
  have hgone : dictContains (st1.sessions.eraseP (fun p => p.1 == name)) name = false :=
    contains_eraseP_self st1.sessions name hnd1
  constructor
  · -- idempotence
    rw [create_session_of_contains st1 name hc1]
    exact congrArg (Prod.mk st1) hget1
  refine ⟨?_, ?_, ?_, ?_⟩
  · -- fresh id after close
    rw [hclose, create_session_of_not_contains _ name hgone]
    show st1.counter ≠ c1
    omega
  · rw [hclose, create_session_of_not_contains _ name hgone]
  · rw [hclose, create_session_of_not_contains _ name hgone]
  · -- close of an absent name is a no-op
    intro habs
    rw [close_session, if_neg (by simp [habs])]

/-- Witness for C8 on the empty registry. -/
theorem session_registry_lifecycle_witness :
    RegWF ⟨[], 0⟩ ∧
      create_session (create_session ⟨[], 0⟩ "s").1 "s" =
        ((create_session ⟨[], 0⟩ "s").1, (create_session ⟨[], 0⟩ "s").2) ∧
      (create_session (close_session (create_session ⟨[], 0⟩ "s").1 "s") "s").2 ≠
        (create_session ⟨[], 0⟩ "s").2 ∧
      (dictContains ([] : List (String × Nat)) "s" = false →
        close_session ⟨[], 0⟩ "s" = ⟨[], 0⟩) := by
  have hwf : RegWF ⟨[], 0⟩ := ⟨List.nodup_nil, by intro p hp; cases hp⟩
  have h := session_registry_lifecycle ⟨[], 0⟩ "s" hwf
  exact ⟨hwf, h.1, h.2.1, h.2.2.2.2⟩

/-! ## Probe/merge lemmas -/

theorem strData_append (a b : String) : (a ++ b).data = a.data ++ b.data := rfl

theorem suffixKey_injective (k : String) {s t : Nat}
    (h : suffixKey k s = suffixKey k t) : s = t := by
  have hd := congrArg String.data h
  simp only [suffixKey, strData_append, List.append_assoc] at hd
  have hd1 := List.append_cancel_left hd
  have hd2 : (natToString s).data = (natToString t).data :=
    List.append_cancel_left hd1
  have hns : natToString s = natToString t := by
    have h1 : natToString s = String.mk ((natToString s).data) := rfl
    rw [h1, hd2]
  exact natToString_injective hns

theorem contains_eq_mem (keys : List String) (x : String) :
    keys.contains x = true ↔ x ∈ keys := by
  simp [List.contains, List.elem_iff]

theorem probeFrom_fresh (keys : List String) (k : String) :
    ∀ fuel s, (∃ j, j < fuel ∧ suffixKey k (s + j) ∉ keys) →
      probeFrom keys k s fuel ∉ keys ∧
      ∃ t, s ≤ t ∧ probeFrom keys k s fuel = suffixKey k t ∧
        ∀ u, s ≤ u → u < t → suffixKey k u ∈ keys := by
  intro fuel
  induction fuel with
  | zero =>
    intro s hj
    obtain ⟨j, hj, _⟩ := hj
    omega
  | succ fuel ih =>
    intro s hj
    obtain ⟨j, hj, hout⟩ := hj
    by_cases hc : keys.contains (suffixKey k s) = true
    · have hmem : suffixKey k s ∈ keys := (contains_eq_mem keys _).mp hc
      have hj0 : j ≠ 0 := by
        rintro rfl
        rw [Nat.add_zero] at hout
        exact hout hmem
      obtain ⟨j2, rfl⟩ : ∃ j2, j = j2 + 1 := ⟨j - 1, by omega⟩
      have hprem : ∃ j3, j3 < fuel ∧ suffixKey k (s + 1 + j3) ∉ keys :=
        ⟨j2, by omega, by rw [show s + 1 + j2 = s + (j2 + 1) by omega]; exact hout⟩
      obtain ⟨hnot, t, hst, heq, hall⟩ := ih (s + 1) hprem
      have hunfold : probeFrom keys k s (fuel + 1) = probeFrom keys k (s + 1) fuel := by
        rw [probeFrom, if_pos hc]
      refine ⟨by rw [hunfold]; exact hnot, t, by omega, by rw [hunfold]; exact heq, ?_⟩
      intro u hsu hut
      by_cases hu : u = s
      · subst hu; exact hmem
      · exact hall u (by omega) hut
    · have hunfold : probeFrom keys k s (fuel + 1) = suffixKey k s := by
        rw [probeFrom, if_neg hc]
      have hnot : suffixKey k s ∉ keys := fun hmem => hc ((contains_eq_mem keys _).mpr hmem)
      exact ⟨by rw [hunfold]; exact hnot, s, le_refl s, hunfold, by omega⟩

theorem probe_spec (keys : List String) (k : String) :
    probe keys k ∉ keys ∧
      ∃ t, 1 ≤ t ∧ probe keys k = suffixKey k t ∧
        ∀ u, 1 ≤ u → u < t → suffixKey k u ∈ keys := by
  have hprem : ∃ j, j < keys.length + 1 ∧ suffixKey k (1 + j) ∉ keys := by
    by_contra h
    push_neg at h
    have hnd : ((List.range (keys.length + 1)).map
        (fun j => suffixKey k (1 + j))).Nodup := by
      refine List.Nodup.map ?_ (List.nodup_range _)
      intro a b hab
      have := suffixKey_injective k hab
      omega
    have hsub : ∀ x ∈ (List.range (keys.length + 1)).map
        (fun j => suffixKey k (1 + j)), x ∈ keys := by
      intro x hx
      obtain ⟨j, hjr, rfl⟩ := List.mem_map.mp hx
      exact h j (List.mem_range.mp hjr)
    have hle := (List.subperm_of_subset hnd hsub).length_le
    simp only [List.length_map, List.length_range] at hle
    omega
  exact probeFrom_fresh keys k (keys.length + 1) 1 hprem

theorem mergeInto_false_step {α : Type} (acc : List (String × α)) (kv : String × α) :
    ∃ k2, k2 ∉ dictKeys acc ∧
      (if dictContains acc kv.1 && !false then
        dictInsert acc (probe (dictKeys acc) kv.1) kv.2
       else dictInsert acc kv.1 kv.2) = acc ++ [(k2, kv.2)] := by
  by_cases hc : dictContains acc kv.1 = true
  · have hcond : (dictContains acc kv.1 && !false) = true := by rw [hc]; rfl
    rw [if_pos hcond]
    have hfresh := (probe_spec (dictKeys acc) kv.1).1
    refine ⟨probe (dictKeys acc) kv.1, hfresh, ?_⟩
    rw [dictInsert, if_neg ?_]
    intro hcc
    exact hfresh ((dictContains_iff_mem acc _).mp hcc)
  · have hc' : dictContains acc kv.1 = false := by
      cases h : dictContains acc kv.1 with
      | true => exact absurd h hc
      | false => rfl
    have hcond : (dictContains acc kv.1 && !false) = false := by rw [hc']; rfl
    rw [if_neg (by rw [hcond]; exact Bool.noConfusion)]
    refine ⟨kv.1, fun hm => hc ((dictContains_iff_mem acc _).mpr hm), ?_⟩
    rw [dictInsert, if_neg (by rw [hc']; exact Bool.noConfusion)]

theorem mergeInto_false_props {α : Type} :
    ∀ (inc acc : List (String × α)), (dictKeys acc).Nodup →
      (dictKeys (mergeInto false acc inc)).Nodup ∧
      (mergeInto false acc inc).length = acc.length + inc.length ∧
      ∃ ext, mergeInto false acc inc = acc ++ ext := by
  intro inc
  induction inc with
  | nil =>
    intro acc hnd
    exact ⟨hnd, by simp [mergeInto], [], by simp [mergeInto]⟩
  | cons kv rest ih =>
    intro acc hnd
    obtain ⟨k2, hk2, hstep⟩ := mergeInto_false_step acc kv
    have hunfold : mergeInto false acc (kv :: rest) =
        mergeInto false (acc ++ [(k2, kv.2)]) rest := by
      rw [mergeInto, List.foldl_cons, ← hstep]
      rfl
    have hnd' : (dictKeys (acc ++ [(k2, kv.2)])).Nodup := by
      rw [dictKeys, List.map_append, List.nodup_append]
      exact ⟨hnd, List.nodup_singleton _, by
        intro x hx hx2
        simp only [List.map_cons, List.map_nil, List.mem_singleton] at hx2
        subst hx2
        exact hk2 hx⟩
    obtain ⟨hn, hl, ext, hext⟩ := ih (acc ++ [(k2, kv.2)]) hnd'
    refine ⟨by rw [hunfold]; exact hn, ?_, ?_⟩
    · rw [hunfold, hl]
      simp only [List.length_append, List.length_cons, List.length_nil]
      omega
    · refine ⟨[(k2, kv.2)] ++ ext, ?_⟩
      rw [hunfold, hext, List.append_assoc]

theorem mergeInto_false_preserves {α : Type} (combined incoming : List (String × α))
    (k : String) (hnd : (dictKeys combined).Nodup)
    (hc : dictContains combined k = true) :
    dictGet? (mergeInto false combined incoming) k = dictGet? combined k := by
  obtain ⟨-, -, ext, hext⟩ := mergeInto_false_props incoming combined hnd
  rw [hext]
  exact dictGet?_append_left combined ext k hc

theorem concat_fold_false {α : Type} :
    ∀ (fds : List (FormBody α)) (acc res : FormBody α),
      res = fds.foldl (fun a fd =>
          ⟨mergeInto false a.data fd.data, mergeInto false a.files fd.files⟩) acc →
      (dictKeys acc.data).Nodup → (dictKeys acc.files).Nodup →
      (dictKeys res.data).Nodup ∧ (dictKeys res.files).Nodup ∧
      res.data.length = acc.data.length + (fds.map (fun fd => fd.data.length)).sum ∧
      res.files.length = acc.files.length + (fds.map (fun fd => fd.files.length)).sum := by
  intro fds
  induction fds with
  | nil =>
    intro acc res hres h1 h2
    subst hres
    simp [h1, h2]
  | cons fd rest ih =>
    intro acc res hres h1 h2
    obtain ⟨hd1, hd2, hd3⟩ := mergeInto_false_props fd.data acc.data h1
    obtain ⟨hf1, hf2, hf3⟩ := mergeInto_false_props fd.files acc.files h2
    have hstep : res = rest.foldl (fun a fd =>
        ⟨mergeInto false a.data fd.data, mergeInto false a.files fd.files⟩)
        ⟨mergeInto false acc.data fd.data, mergeInto false acc.files fd.files⟩ := hres
    obtain ⟨g1, g2, g3, g4⟩ := ih ⟨mergeInto false acc.data fd.data,
      mergeInto false acc.files fd.files⟩ res hstep hd1 hf1
    refine ⟨g1, g2, ?_, ?_⟩
    · rw [g3]
      simp only [List.map_cons, List.sum_cons]
      rw [hd2]
      omega
    · rw [g4]
      simp only [List.map_cons, List.sum_cons]
      rw [hf2]
      omega

/-! ## C6: no-overwrite merge — distinct keys, additive counts, suffix probing -/

/-- C6.  Merging up to five FormBody inputs with
`overwrite_duplicates = false`: in the result no two entries of a namespace
share a key and each namespace's entry count is the sum of the inputs'
counts (conjuncts 1–2); an already-merged binding is never changed by
merging further entries on top of it (conjunct 3); and the name chosen for a
colliding key `k` is `k_t` for the smallest suffix `t ≥ 1` not already in
use (conjunct 4). -/
theorem concat_form_data_no_overwrite {α : Type} (fd1 : FormBody α)
    (fd2 fd3 fd4 fd5 : Option (FormBody α)) :
    ((dictKeys (concat_form_data fd1 fd2 fd3 fd4 fd5 false).data).Nodup ∧
     (dictKeys (concat_form_data fd1 fd2 fd3 fd4 fd5 false).files).Nodup) ∧
    ((concat_form_data fd1 fd2 fd3 fd4 fd5 false).data.length =
        (([some fd1, fd2, fd3, fd4, fd5].filterMap id).map
          (fun fd => fd.data.length)).sum ∧
     (concat_form_data fd1 fd2 fd3 fd4 fd5 false).files.length =
        (([some fd1, fd2, fd3, fd4, fd5].filterMap id).map
          (fun fd => fd.files.length)).sum) ∧
    (∀ (combined incoming : List (String × α)) (k : String),
      (dictKeys combined).Nodup → dictContains combined k = true →
      dictGet? (mergeInto false combined incoming) k = dictGet? combined k) ∧
    (∀ (keys : List String) (k : String),
      probe keys k ∉ keys ∧ ∃ t, 1 ≤ t ∧ probe keys k = suffixKey k t ∧
        ∀ u, 1 ≤ u → u < t → suffixKey k u ∈ keys) := by
  obtain ⟨g1, g2, g3, g4⟩ := concat_fold_false
    ([some fd1, fd2, fd3, fd4, fd5].filterMap id) ⟨[], []⟩
    (concat_form_data fd1 fd2 fd3 fd4 fd5 false) rfl List.nodup_nil List.nodup_nil
  refine ⟨⟨g1, g2⟩, ⟨?_, ?_⟩, ?_, ?_⟩
  · rw [g3]; simp
  · rw [g4]; simp
  · intro combined incoming k hnd hc
    exact mergeInto_false_preserves combined incoming k hnd hc
  · intro keys k
    exact probe_spec keys k

/-- Witness for C6: two bodies colliding on `a`, where `a_1` is also already
taken by the second body itself. -/
theorem concat_form_data_no_overwrite_witness :
    (dictKeys (concat_form_data (⟨[("a", "1")], []⟩ : FormBody String)
        (some ⟨[("a", "2"), ("a_1", "3")], []⟩) none none none false).data).Nodup ∧
    (concat_form_data (⟨[("a", "1")], []⟩ : FormBody String)
        (some ⟨[("a", "2"), ("a_1", "3")], []⟩) none none none false).data.length =
      (([some (⟨[("a", "1")], []⟩ : FormBody String),
         some ⟨[("a", "2"), ("a_1", "3")], []⟩, none, none, none].filterMap id).map
        (fun fd => fd.data.length)).sum ∧
    dictGet? (mergeInto false [("a", "1")] [("a", "9")]) "a" = dictGet? [("a", "1")] "a" ∧
    probe ["a", "a_1"] "a" ∉ ["a", "a_1"] := by
  have h := concat_form_data_no_overwrite (⟨[("a", "1")], []⟩ : FormBody String)
    (some ⟨[("a", "2"), ("a_1", "3")], []⟩) none none none
  exact ⟨h.1.1, h.2.1.1,
    h.2.2.1 [("a", "1")] [("a", "9")] "a" (by decide) (by decide),
    (h.2.2.2 ["a", "a_1"] "a").1⟩

/-! ## C7: overwrite merge — right-most definition wins -/

theorem mergeInto_true_eq_foldl {α : Type} :
    ∀ (inc acc : List (String × α)),
      mergeInto true acc inc = inc.foldl (fun a kv => dictInsert a kv.1 kv.2) acc := by
  intro inc
  induction inc with
  | nil => intro acc; rfl
  | cons kv rest ih =>
    intro acc
    rw [mergeInto, List.foldl_cons, List.foldl_cons]
    have hcond : (dictContains acc kv.1 && !true) = false := Bool.and_false _
    rw [if_neg (by rw [hcond]; exact Bool.noConfusion)]
    exact ih (dictInsert acc kv.1 kv.2)

theorem foldl_dictInsert_get {α : Type} (k : String) :
    ∀ (inc acc : List (String × α)),
      dictGet? (inc.foldl (fun a kv => dictInsert a kv.1 kv.2) acc) k =
        ((inc.reverse.find? (fun p => p.1 == k)).map (fun p => p.2)).or
          (dictGet? acc k) := by
  intro inc
  induction inc with
  | nil =>
    intro acc
    simp
  | cons kv rest ih =>
    intro acc
    rw [List.foldl_cons, ih (dictInsert acc kv.1 kv.2), dictGet?_dictInsert,
      List.reverse_cons, List.find?_append]
    by_cases hk : k = kv.1
    · have hb : (kv.1 == k) = true := beq_iff_eq.mpr hk.symm
      cases hf : rest.reverse.find? (fun p => p.1 == k) with
      | none => simp [List.find?, hb, hk]
      | some q => simp [List.find?, hb, hk]
    · have hb : (kv.1 == k) = false := beq_eq_false_iff_ne.mpr (fun h => hk h.symm)
      cases hf : rest.reverse.find? (fun p => p.1 == k) with
      | none => simp [List.find?, hb, hk]
      | some q => simp [List.find?, hb, hk]

theorem mergeInto_true_get {α : Type} (acc inc : List (String × α)) (k : String)
    (hnd : (dictKeys inc).Nodup) :
    dictGet? (mergeInto true acc inc) k = (dictGet? inc k).or (dictGet? acc k) := by
  rw [mergeInto_true_eq_foldl, foldl_dictInsert_get, find?_reverse_of_nodup k inc hnd]
  rfl

theorem lastDefined_cons {α : Type} (m : List (String × α))
    (rest : List (List (String × α))) (k : String) :
    lastDefined (m :: rest) k = (lastDefined rest k).or (dictGet? m k) := by
  rw [lastDefined, lastDefined, List.reverse_cons, List.findSome?_append]
  congr 1
  cases hf : dictGet? m k with
  | none => simp [List.findSome?, hf]
  | some v => simp [List.findSome?, hf]

theorem foldl_mergeInto_true_get {α : Type} (k : String) :
    ∀ (maps : List (List (String × α))) (acc : List (String × α)),
      (∀ m ∈ maps, (dictKeys m).Nodup) →
      dictGet? (maps.foldl (mergeInto true) acc) k =
        (lastDefined maps k).or (dictGet? acc k) := by
  intro maps
  induction maps with
  | nil =>
    intro acc _
    simp [lastDefined]
  | cons m rest ih =>
    intro acc hnd
    rw [List.foldl_cons, ih (mergeInto true acc m) (fun m2 hm2 => hnd m2 (by simp [hm2])),
      mergeInto_true_get acc m k (hnd m (by simp)), lastDefined_cons, Option.or_assoc]

theorem concat_fold_components {α : Type} (ov : Bool) :
    ∀ (fds : List (FormBody α)) (acc : FormBody α),
      (fds.foldl (fun a fd =>
          ⟨mergeInto ov a.data fd.data, mergeInto ov a.files fd.files⟩) acc).data =
        (fds.map (fun fd => fd.data)).foldl (mergeInto ov) acc.data ∧
      (fds.foldl (fun a fd =>
          ⟨mergeInto ov a.data fd.data, mergeInto ov a.files fd.files⟩) acc).files =
        (fds.map (fun fd => fd.files)).foldl (mergeInto ov) acc.files := by
  intro fds
  induction fds with
  | nil => intro acc; exact ⟨rfl, rfl⟩
  | cons fd rest ih =>
    intro acc
    exact ih ⟨mergeInto ov acc.data fd.data, mergeInto ov acc.files fd.files⟩

/-- C7.  Merging FormBody inputs with `overwrite_duplicates = true` (inputs
being real dicts, i.e. with distinct keys): for every key, the value bound in
the result — independently for the `data` and `files` namespaces — is
exactly the value from the last (right-most, present) input that defined
that key, and a key defined by no input is absent from the result. -/
theorem concat_form_data_overwrite_last_wins {α : Type} (fd1 : FormBody α)
    (fd2 fd3 fd4 fd5 : Option (FormBody α)) (k : String)
    (hnd : ∀ fd ∈ [some fd1, fd2, fd3, fd4, fd5].filterMap id,
      (dictKeys fd.data).Nodup ∧ (dictKeys fd.files).Nodup) :
    dictGet? (concat_form_data fd1 fd2 fd3 fd4 fd5 true).data k =
      lastDefined (([some fd1, fd2, fd3, fd4, fd5].filterMap id).map
        (fun fd => fd.data)) k ∧
    dictGet? (concat_form_data fd1 fd2 fd3 fd4 fd5 true).files k =
      lastDefined (([some fd1, fd2, fd3, fd4, fd5].filterMap id).map
        (fun fd => fd.files)) k := by
  obtain ⟨hcd, hcf⟩ := concat_fold_components true
    ([some fd1, fd2, fd3, fd4, fd5].filterMap id) ⟨[], []⟩
  constructor
  · rw [concat_form_data, hcd, foldl_mergeInto_true_get]
    · simp [dictGet?, List.find?]
    · intro m hm
      obtain ⟨fd, hfd, rfl⟩ := List.mem_map.mp hm
      exact (hnd fd hfd).1
  · rw [concat_form_data, hcf, foldl_mergeInto_true_get]
    · simp [dictGet?, List.find?]
    · intro m hm
      obtain ⟨fd, hfd, rfl⟩ := List.mem_map.mp hm
      exact (hnd fd hfd).2

/-- Witness for C7: key `a` is defined by inputs 1 and 2; the merged value is
input 2's. -/
theorem concat_form_data_overwrite_last_wins_witness :
    dictGet? (concat_form_data (⟨[("a", "1"), ("b", "7")], []⟩ : FormBody String)
        (some ⟨[("a", "2")], []⟩) none none none true).data "a" =
      lastDefined (([some (⟨[("a", "1"), ("b", "7")], []⟩ : FormBody String),
        some ⟨[("a", "2")], []⟩, none, none, none].filterMap id).map
        (fun fd => fd.data)) "a" ∧
    dictGet? (concat_form_data (⟨[("a", "1"), ("b", "7")], []⟩ : FormBody String)
        (some ⟨[("a", "2")], []⟩) none none none true).data "a" = some "2" := by
  have h := concat_form_data_overwrite_last_wins
    (⟨[("a", "1"), ("b", "7")], []⟩ : FormBody String)
    (some ⟨[("a", "2")], []⟩) none none none "a"
    (by intro fd hfd; fin_cases hfd <;> exact ⟨by decide, by decide⟩)
  exact ⟨h.1, by decide⟩

/-! ## C9: numeric indexing with bounds check, not-found signalling -/

theorem isDigitStr_not_dollar (p : String) (h : isDigitStr p = true) :
    startsDollar p = false := by
  rw [isDigitStr] at h
  rw [startsDollar]
  cases hd : p.data with
  | nil => rfl
  | cons c cs =>
    rw [hd] at h
    simp only [List.all_cons, Bool.and_eq_true] at h
    obtain ⟨-, h1, -⟩ := h
    refine beq_eq_false_iff_ne.mpr ?_
    intro hceq
    subst hceq
    simp [isDigitCh] at h1

/-- C9.  On the document of the round-trip example, path `a.b.0` in simple
dot-notation yields the value `42` with `found = true` and path `a.b.5`
yields the supplied default with `found = false` and a bounds message
(conjuncts 1–2).  In general, a numeric path segment whose index is out of
range for a sequence makes `get_json_field` return the default with
`found = false` — a returned triple, never a raised exception (conjunct 3) —
and makes the converter's `_simple_extract` return the default value if
non-empty and the empty result set otherwise (conjunct 4). -/
theorem get_json_field_index_bounds (dflt : String) :
    get_json_field (Except.ok exampleDoc) "a.b.0" dflt true = ("42", "", true) ∧
    get_json_field (Except.ok exampleDoc) "a.b.5" dflt true =
      (dflt, "List index 5 out of range", false) ∧
    (∀ (fp : String) (xs : List Json) (part : String) (rest : List String) (i : Int),
      pyInt? part = some i → ¬(0 ≤ i ∧ i < (xs.length : Int)) →
      gjfLoop fp dflt true (Json.arr xs) (part :: rest) =
        (dflt, "List index " ++ intToString i ++ " out of range", false)) ∧
    (∀ (xs : List Json) (part : String) (rest : List String),
      isDigitStr part = true → ¬(parseDigits part < xs.length) →
      simpleExtractLoop dflt (Json.arr xs) (part :: rest) = defaultResult dflt) := by
  refine ⟨rfl, rfl, ?_, ?_⟩
  · intro fp xs part rest i hpy hrange
    rw [gjfLoop, hpy]
    show (if 0 ≤ i ∧ i < (xs.length : Int) then
        gjfLoop fp dflt true (xs.getD i.toNat Json.null) rest
      else (dflt, "List index " ++ intToString i ++ " out of range", false)) = _
    rw [if_neg hrange]
  · intro xs part rest hdig hrange
    rw [simpleExtractLoop, isDigitStr_not_dollar part hdig]
    simp only [Bool.false_eq_true, if_false, hdig, if_true, if_neg hrange]
    rfl

/-- Witness for C9 at default `"dv"` and, for the general clauses, a
one-element array indexed by `7`. -/
theorem get_json_field_index_bounds_witness :
    get_json_field (Except.ok exampleDoc) "a.b.0" "dv" true = ("42", "", true) ∧
    get_json_field (Except.ok exampleDoc) "a.b.5" "dv" true =
      ("dv", "List index 5 out of range", false) ∧
    gjfLoop "p" "dv" true (Json.arr [Json.num 1]) ["7"] =
      ("dv", "List index " ++ intToString 7 ++ " out of range", false) ∧
    simpleExtractLoop "dv" (Json.arr [Json.num 1]) ["7"] = defaultResult "dv" := by
  have h := get_json_field_index_bounds "dv"
  exact ⟨h.1, h.2.1,
    h.2.2.1 "p" [Json.num 1] "7" [] 7 (by decide) (by decide),
    h.2.2.2 [Json.num 1] "7" [] (by decide) (by decide)⟩

/-! ## C10: a path resolving to JSON null is reported as not found -/

theorem null_loops (dflt : String) :
    ∀ (parts : List String) (data : Json),
      resolvePath data parts = some Json.null →
      (∀ p ∈ parts, startsDollar p = false ∧ p ≠ "") →
      simpleExtractLoop dflt data parts = defaultResult dflt ∧
      nestedExtractLoop dflt data parts = defaultResult dflt := by
  intro parts
  induction parts with
  | nil =>
    intro data hres _
    rw [resolvePath] at hres
    have hd : data = Json.null := by
      injection hres
    subst hd
    exact ⟨rfl, rfl⟩
  | cons p rest ih =>
    intro data hres hparts
    obtain ⟨hpd, hpne⟩ := hparts p (by simp)
    have hparts2 : ∀ q ∈ rest, startsDollar q = false ∧ q ≠ "" := by
      intro q hq
      exact hparts q (by simp [hq])
    have hpne2 : (p == "") = false := beq_eq_false_iff_ne.mpr hpne
    rw [resolvePath] at hres
    cases hstep : resolveStep data p with
    | none => rw [hstep] at hres; exact absurd hres (by simp)
    | some v =>
      rw [hstep] at hres
      cases data with
      | obj fs =>
        rw [resolveStep] at hstep
        constructor
        · rw [simpleExtractLoop, hpd]
          simp only [Bool.false_eq_true, if_false]
          rw [hstep]
          by_cases hv : v = Json.null
          · subst hv; rfl
          · have hnn : isNull v = false := by
              cases v <;> simp [isNull] at hv ⊢
            simp only [Option.getD_some, hnn, Bool.false_eq_true, if_false]
            exact (ih v hres hparts2).1
        · rw [nestedExtractLoop, hpne2]
          simp only [Bool.false_eq_true, if_false]
          rw [hstep]
          by_cases hv : v = Json.null
          · subst hv; rfl
          · have hnn : isNull v = false := by
              cases v <;> simp [isNull] at hv ⊢
            simp only [Option.getD_some, hnn, Bool.false_eq_true, if_false]
            exact (ih v hres hparts2).2
      | arr xs =>
        rw [resolveStep] at hstep
        by_cases hcond : (isDigitStr p && decide (parseDigits p < xs.length)) = true
        · rw [if_pos hcond] at hstep
          simp only [Bool.and_eq_true] at hcond
          obtain ⟨hdig, hltd⟩ := hcond
          have hlt : parseDigits p < xs.length := of_decide_eq_true hltd
          have hv : xs.getD (parseDigits p) Json.null = v := by
            injection hstep
          constructor
          · rw [simpleExtractLoop, isDigitStr_not_dollar p hdig]
            simp only [Bool.false_eq_true, if_false, hdig, if_true, if_pos hlt, hv]
            by_cases hv2 : v = Json.null
            · subst hv2; rfl
            · have hnn : isNull v = false := by
                cases v <;> simp [isNull] at hv2 ⊢
              simp only [hnn, Bool.false_eq_true, if_false]
              exact (ih v hres hparts2).1
          · rw [nestedExtractLoop, hpne2]
            simp only [Bool.false_eq_true, if_false, hdig, if_true, if_pos hlt, hv]
            by_cases hv2 : v = Json.null
            · subst hv2; rfl
            · have hnn : isNull v = false := by
                cases v <;> simp [isNull] at hv2 ⊢
              simp only [hnn, Bool.false_eq_true, if_false]
              exact (ih v hres hparts2).2
        · rw [if_neg hcond] at hstep
          exact Option.noConfusion hstep
      | null => exact Option.noConfusion hstep
      | bool b => exact Option.noConfusion hstep
      | num n => exact Option.noConfusion hstep
      | str s2 => exact Option.noConfusion hstep

/-- C10.  If a path (whose segments are ordinary keys: not `$`-prefixed, not
empty) resolves through existing keys/indices to the JSON value `null`, then
both `_simple_extract` and `_nested_extract` report not-found: they return
`[default]` for a non-empty default and `[]` for an empty one — never the
null value itself.  With an empty default, `extract_field`'s result shaping
then yields `(default, default, count = 0)`. -/
theorem null_resolution_not_found (data : Json) (parts : List String)
    (dflt : String) (hres : resolvePath data parts = some Json.null)
    (hparts : ∀ p ∈ parts, startsDollar p = false ∧ p ≠ "") :
    simpleExtractLoop dflt data parts = defaultResult dflt ∧
    nestedExtractLoop dflt data parts = defaultResult dflt ∧
    (dflt = "" → ∀ (rt : String) (mult : Bool),
      extract_field_tail (simpleExtractLoop dflt data parts) dflt rt mult =
        ("", "", 0)) := by
  obtain ⟨h1, h2⟩ := null_loops dflt parts data hres hparts
  refine ⟨h1, h2, ?_⟩
  intro h rt mult
  subst h
  rw [h1]
  rfl

/-- Witness for C10: the document binding `a` to `null`; extraction of `a`
returns the default (`"d"`), and through `extract_field` with an empty
default the count is 0. -/
theorem null_resolution_not_found_witness :
    resolvePath (Json.obj [("a", Json.null)]) ["a"] = some Json.null ∧
    simpleExtractLoop "d" (Json.obj [("a", Json.null)]) ["a"] = defaultResult "d" ∧
    nestedExtractLoop "d" (Json.obj [("a", Json.null)]) ["a"] = defaultResult "d" ∧
    extract_field (Except.ok (Json.obj [("a", Json.null)])) "a" "simple" "" "auto"
      false = ("", "", 0) := by
  have hp : ∀ p ∈ ["a"], startsDollar p = false ∧ p ≠ "" := by
    intro p hp
    simp only [List.mem_singleton] at hp
    subst hp
    exact ⟨rfl, by decide⟩
  have h := null_resolution_not_found (Json.obj [("a", Json.null)]) ["a"] "d" rfl hp
  have h0 := null_resolution_not_found (Json.obj [("a", Json.null)]) ["a"] "" rfl hp
  exact ⟨rfl, h.1, h.2.1, h0.2.2 rfl "auto" false⟩

end ComfyHTTP
